import Mathlib

/-!
Verification of the Aljarida archive scrapers.

This file gives a shallow embedding of the crawl logic of `scraper.py`
(the article scraper `AljaridaScraper`) and `pdf_scraper.py` (the daily
PDF scraper `AljaridaPDFScraper`), together with proofs about it.

Modelling conventions:
- Strings manipulated by the Python code are embedded as `List Char`.
- Calendar dates used as iteration cursors are embedded as `Int` day
  indices (`datetime` plus/minus `timedelta(days=1)` is linear stepping).
- Network and S3 effects are abstracted into explicit oracles and state:
  a fetch oracle maps an attempt or a page to its outcome, the object
  store is the list of keys present, and every `put` issued is logged.
-/

/-- Decimal digit character, as produced by Python string formatting;
out-of-range inputs (never produced by `n % 10`) map to a placeholder. -/
def digitChar (n : Nat) : Char :=
  match n with
  | 0 => '0'
  | 1 => '1'
  | 2 => '2'
  | 3 => '3'
  | 4 => '4'
  | 5 => '5'
  | 6 => '6'
  | 7 => '7'
  | 8 => '8'
  | 9 => '9'
  | _ => '*'

/-- Fuel-driven decimal rendering helper; `fuel = n + 1` always suffices. -/
def natDigitsAux : Nat → Nat → List Char
  | 0, _ => []
  | fuel + 1, n =>
    if n < 10 then [digitChar n] else natDigitsAux fuel (n / 10) ++ [digitChar (n % 10)]

/-- Decimal rendering of a natural number: Python `str(n)` / `f"{n}"`. -/
def natDigits (n : Nat) : List Char := natDigitsAux (n + 1) n

/-- Python `f"{n:02d}"`: decimal rendering zero-padded to width two. -/
def pad2 (n : Nat) : List Char := if n < 10 then '0' :: natDigits n else natDigits n

/-- Article-sink partition key, from `scraper.py` line 203:
`f"aljarida/year={year}/month={month:02d}/day={day:02d}/data.xlsx"`. -/
def articleKey (y m d : Nat) : List Char :=
  ("aljarida/year=".toList) ++ natDigits y ++ ("/month=".toList) ++ pad2 m ++
    ("/day=".toList) ++ pad2 d ++ ("/data.xlsx".toList)

/-- PDF-sink partition key, from `pdf_scraper.py` line 132:
`f"aljarida/year={year}/month={month:02d}/day={day:02d}/magazinepdf/{filename}"`. -/
def pdfKey (y m d : Nat) (filename : List Char) : List Char :=
  ("aljarida/year=".toList) ++ natDigits y ++ ("/month=".toList) ++ pad2 m ++
    ("/day=".toList) ++ pad2 d ++ ("/magazinepdf/".toList) ++ filename

/-- Zero-padding to two digits, written after the spec's words (spec-side
definition for the refinement statement of claim C8). -/
def specZeroPad2 (n : Nat) : List Char :=
  if n < 10 then ['0'] ++ natDigits n else natDigits n

/-- Partition key as the spec words it:
`{collection}/year={Y}/month={M:02}/day={D:02}/{artifact}` (spec-side
definition for the refinement statement of claim C8). -/
def specPartitionKey (collection : List Char) (y m d : Nat) (artifact : List Char) : List Char :=
  collection ++ ("/year=".toList) ++ natDigits y ++ ("/month=".toList) ++ specZeroPad2 m ++
    ("/day=".toList) ++ specZeroPad2 d ++ ("/".toList) ++ artifact

/-- Everything strictly before the first occurrence of `c`: Python
`s.split(c)[0]`, and also how `urlparse` truncates at `?` and `#`. -/
def takeUntilChar (c : Char) (l : List Char) : List Char := l.takeWhile (· ≠ c)

/-- Text after the first occurrence of `"://"`, if any.  Models the
scheme/netloc split performed by `urlparse` on the absolute URLs this
repository builds with `urljoin(self.base_url, href)`. -/
def afterSchemeSplit : List Char → Option (List Char)
  | [] => none
  | ':' :: '/' :: '/' :: rest => some rest
  | _ :: rest => afterSchemeSplit rest

/-- `urlparse(url).path`: strip the fragment, then the query, then (when a
scheme/netloc is present) keep only the part from the first `/` after the
netloc. -/
def urlPathChars (u : List Char) : List Char :=
  let noFrag := takeUntilChar '#' u
  let noQuery := takeUntilChar '?' noFrag
  match afterSchemeSplit noQuery with
  | none => noQuery
  | some rest => rest.dropWhile (· ≠ '/')

/-- `os.path.basename`: the part after the last `/`. -/
def basenameChars (l : List Char) : List Char := (l.reverse.takeWhile (· ≠ '/')).reverse

/-- Python `l.endswith(suf)`. -/
def hasSuffixChars (l suf : List Char) : Bool := l.reverse.take suf.length == suf.reverse

/-- Deterministic fallback PDF filename, from `pdf_scraper.py` line 127:
`f"aljarida-{year}{month:02d}{day:02d}-1.pdf"`. -/
def pdfFallbackName (y m d : Nat) : List Char :=
  ("aljarida-".toList) ++ natDigits y ++ pad2 m ++ pad2 d ++ ("-1.pdf".toList)

/-- Filename selection of `AljaridaPDFScraper.upload_pdf_to_s3`
(`pdf_scraper.py` lines 124-130): basename of the parsed URL path; if that
is empty or does not end in `.pdf`, the date-derived fallback; finally
`split('?')[0]`. -/
def pdfUploadFilename (u : List Char) (y m d : Nat) : List Char :=
  let f0 := basenameChars (urlPathChars u)
  let f1 := if f0.isEmpty || !hasSuffixChars f0 (".pdf".toList) then pdfFallbackName y m d else f0
  takeUntilChar '?' f1

/-- Artifact filename as claim C10 words it: the basename of the URL's path
with any query string removed; when that is empty or does not end in
`.pdf`, the deterministic date-derived fallback (spec-side definition for
the refinement statement of claim C10). -/
def specArtifactFilename (u : List Char) (y m d : Nat) : List Char :=
  let b := takeUntilChar '?' (basenameChars (urlPathChars u))
  if b.isEmpty || !hasSuffixChars b (".pdf".toList) then pdfFallbackName y m d else b

/-- Effect of one call to `AljaridaScraper.save_to_s3` (`scraper.py` lines
196-240), with the S3 client configured.  The store is the list of keys
present; the result is (returned success flag, store afterwards, keys a
`put_object` call was issued for).  The code builds the partitioned key and
calls `put_object` unconditionally — there is no existence check; a failed
put raises inside the `try`, is caught, and leaves the store unchanged. -/
def save_to_s3 (putOk : Bool) (store : List (List Char)) (y m d : Nat) :
    Bool × List (List Char) × List (List Char) :=
  let key := articleKey y m d
  if putOk then (true, store ++ [key], [key]) else (false, store, [key])

/-- Result of one call to `AljaridaPDFScraper.upload_pdf_to_s3`. -/
structure SinkEffect where
  success : Bool
  store : List (List Char)
  downloaded : Bool
  puts : List (List Char)
  deriving DecidableEq

/-- One call to `AljaridaPDFScraper.upload_pdf_to_s3` (`pdf_scraper.py`
lines 118-167), with the S3 client configured.  `downloadOk` abstracts the
streamed `session.get` of the PDF, `uploadOk` the `upload_fileobj` call.
The code first issues `head_object` on the derived key: if the key is
present it returns `True` with no download and no upload; otherwise it
downloads and uploads, returning `False` on either failure (the exception
is caught at line 165). -/
def upload_pdf_to_s3 (downloadOk uploadOk : Bool) (store : List (List Char))
    (u : List Char) (y m d : Nat) : SinkEffect :=
  let filename := pdfUploadFilename u y m d
  let key := pdfKey y m d filename
  if key ∈ store then ⟨true, store, false, []⟩
  else if downloadOk then
    if uploadOk then ⟨true, store ++ [key], true, [key]⟩
    else ⟨false, store, true, [key]⟩
  else ⟨false, store, true, []⟩

/-- Outcome of fetching and parsing one month-listing page, abstracting
`get_page_content` plus the BeautifulSoup parse in
`scrape_pdf_month_index`: the fetch can fail outright (`get_page_content`
returned `None`), the page can lack the `aljarida-archive-pdf` widget, or
it parses to a date-to-PDF-URL mapping. -/
inductive MonthFetchOutcome where
  | fetchFailed : MonthFetchOutcome
  | noWidget : MonthFetchOutcome
  | parsed : List (List Char × List Char) → MonthFetchOutcome

/-- The date-string to PDF-URL mapping parsed from one month listing. -/
abbrev MonthIndex := List (List Char × List Char)

/-- The `self.month_cache` dict: cache-key string to month index. -/
abbrev MonthCache := List (List Char × MonthIndex)

/-- The cache key of `scrape_pdf_month_index` (`pdf_scraper.py` line 69):
`f"{year}-{month:02d}"`. -/
def monthCacheKey (y m : Nat) : List Char := natDigits y ++ '-' :: pad2 m

/-- Python `cache_key in self.month_cache` / `self.month_cache[cache_key]`. -/
def lookupKey (k : List Char) : MonthCache → Option MonthIndex
  | [] => none
  | (k', v) :: rest => if k' = k then some v else lookupKey k rest

/-- One call to `AljaridaPDFScraper.scrape_pdf_month_index`
(`pdf_scraper.py` lines 67-116).  Returns the month index, the cache
afterwards, and the number of listing fetches issued (0 on a cache hit,
1 otherwise — a failed fetch and a widget-less page both cache `{}`). -/
def scrape_pdf_month_index (fp : Nat → Nat → MonthFetchOutcome) (y m : Nat)
    (cache : MonthCache) : MonthIndex × MonthCache × Nat :=
  let key := monthCacheKey y m
  match lookupKey key cache with
  | some v => (v, cache, 0)
  | none =>
    match fp y m with
    | .fetchFailed => ([], (key, []) :: cache, 1)
    | .noWidget => ([], (key, []) :: cache, 1)
    | .parsed idx => (idx, (key, idx) :: cache, 1)

/-- A sequence of month-index resolutions within one run, threading the
cache and summing the listing fetches issued. -/
def resolveMonths (fp : Nat → Nat → MonthFetchOutcome) :
    List (Nat × Nat) → MonthCache → MonthCache × Nat
  | [], cache => (cache, 0)
  | (y, m) :: rest, cache =>
    let r := scrape_pdf_month_index fp y m cache
    let rr := resolveMonths fp rest r.2.1
    (rr.1, r.2.2 + rr.2)

/-- Observable behaviour of one `get_page_content` call: the value
returned, how many transport attempts were made, and the argument of each
`time.sleep` between failed attempts. -/
structure FetchRun (α : Type) where
  result : Option α
  attempts : Nat
  sleeps : List Nat
  deriving DecidableEq

/-- The retry loop of `get_page_content` (`scraper.py` lines 52-66 and
`pdf_scraper.py` lines 51-65), generalized over the absolute attempt index
`i` so that the backoff `2 ** attempt` is computed as in the source; the
second argument is the number of attempts remaining.  `orc i` is the
outcome of the transport call on attempt `i` (`none` = any exception). -/
def getPageContentAux (orc : Nat → Option α) : Nat → Nat → FetchRun α
  | _, 0 => ⟨none, 0, []⟩
  | i, rem + 1 =>
    match orc i with
    | some c => ⟨some c, 1, []⟩
    | none =>
      if rem = 0 then ⟨none, 1, []⟩
      else
        let r := getPageContentAux orc (i + 1) rem
        ⟨r.result, r.attempts + 1, 2 ^ i :: r.sleeps⟩

/-- `get_page_content(url, max_retries=3)`: run the retry loop from
attempt index 0. -/
def get_page_content (orc : Nat → Option α) (maxRetries : Nat := 3) : FetchRun α :=
  getPageContentAux orc 0 maxRetries

/-- Per-date settled outcome seen by the PDF orchestrator loop: the month
index has no PDF for the date; or `upload_pdf_to_s3` returned `True`
(stored or already present); or it returned `False` / the body raised. -/
inductive DayOutcome where
  | noDoc : DayOutcome
  | success : DayOutcome
  | failure : DayOutcome
  deriving DecidableEq

/-- Mutable state of `AljaridaPDFScraper.scrape_and_upload`: the cursor
date (as a linear day index), the three counters, and the value stored in
the checkpoint object. -/
structure PdfRunState where
  current : Int
  uploaded : Nat
  skipped : Nat
  failed : Nat
  checkpoint : Option Int
  deriving DecidableEq

/-- `total_days = total_uploaded + total_skipped + total_failed`
(`pdf_scraper.py` line 225). -/
def settledDays (s : PdfRunState) : Nat := s.uploaded + s.skipped + s.failed

/-- One iteration of the `scrape_and_upload` loop body after the budget
checks (`pdf_scraper.py` lines 235-268): settle the current date per its
outcome, write the checkpoint exactly on success, then step the cursor one
day backwards.  The `except` path (line 270) has the same effect as a
failure: counter, no checkpoint, step backwards. -/
def pdfStep (outcome : Int → DayOutcome) (s : PdfRunState) : PdfRunState :=
  let t :=
    match outcome s.current with
    | .success => { s with uploaded := s.uploaded + 1, checkpoint := some s.current }
    | .noDoc => { s with skipped := s.skipped + 1 }
    | .failure => { s with failed := s.failed + 1 }
  { t with current := s.current - 1 }

/-- The checkpoint writes (`set_last_checkpoint_date` calls) one iteration
issues: exactly one, of the current date, on success. -/
def pdfStepWrites (outcome : Int → DayOutcome) (s : PdfRunState) : List Int :=
  if outcome s.current = .success then [s.current] else []

/-- The `while current_date >= end_date` loop of `scrape_and_upload`
(`pdf_scraper.py` lines 221-274), fuel-indexed: each iteration first
re-checks the loop condition, then the two budget limits from line 225
onwards (`total_days >= max_days_per_run`, `elapsed_minutes >=
max_runtime_minutes`, with elapsed time modelled as a function `el` of the
number of settled days, which equals the iteration count), then settles
one date.  Returns the final state and the log of checkpoint writes. -/
def pdfRunFuel (outcome : Int → DayOutcome) (endDate : Int) (maxDays maxMinutes : Nat)
    (el : Nat → Nat) : Nat → PdfRunState → PdfRunState × List Int
  | 0, s => (s, [])
  | fuel + 1, s =>
    if s.current < endDate then (s, [])
    else if maxDays ≤ settledDays s then (s, [])
    else if maxMinutes ≤ el (settledDays s) then (s, [])
    else
      let r := pdfRunFuel outcome endDate maxDays maxMinutes el fuel (pdfStep outcome s)
      (r.1, pdfStepWrites outcome s ++ r.2)

/-- `AljaridaPDFScraper.scrape_and_upload`: run the loop with exactly
enough fuel for the whole date range (one unit per date from the start
cursor down to `endDate`; the loop condition stops the run before the fuel
can run out). -/
def pdfRun (outcome : Int → DayOutcome) (endDate : Int) (maxDays maxMinutes : Nat)
    (el : Nat → Nat) (s : PdfRunState) : PdfRunState × List Int :=
  pdfRunFuel outcome endDate maxDays maxMinutes el (s.current - endDate + 1).toNat s

/-- Counters-zeroed state at the start of `scrape_and_upload`, with the
checkpoint object holding `chk`. -/
def pdfInitState (start : Int) (chk : Option Int) : PdfRunState :=
  { current := start, uploaded := 0, skipped := 0, failed := 0, checkpoint := chk }

/-- Start-date resolution of `pdf_scraper.py` `__main__` (lines 314-348):
the default start; overridden by a parseable first CLI argument; and when
`USE_CHECKPOINT` is set and no first CLI argument exists at all, a stored
checkpoint `C` replaces the start with `C - timedelta(days=1)`. -/
def resolveStartDate (useCheckpoint argvGiven : Bool) (parsedArgv checkpoint : Option Int)
    (defaultStart : Int) : Int :=
  let s := if argvGiven then parsedArgv.getD defaultStart else defaultStart
  if useCheckpoint && !argvGiven then
    match checkpoint with
    | some c => c - 1
    | none => s
  else s

/-- One row scraped from an archive listing page. -/
structure ArchiveArticle where
  category : List Char
  title : List Char
  url : List Char
  deriving DecidableEq

/-- `AljaridaScraper.scrape_archive_page` (`scraper.py` lines 86-130) for a
fixed date, over a fetch-and-parse oracle: `fp p = none` models
`get_page_content` returning `None` for page `p` (the function then
returns `[], 0`); `fp p = some (mp, arts)` models a fetched page whose
pagination declares `mp` pages (`get_max_pages`, consulted only when
`p = 1`) and whose archive table rows parse to `arts` (empty when the
widget or table is missing). -/
def scrape_archive_page (fp : Nat → Option (Nat × List ArchiveArticle)) (pageNum : Nat) :
    List ArchiveArticle × Nat :=
  match fp pageNum with
  | none => ([], 0)
  | some (maxPages, arts) => (arts, if pageNum = 1 then maxPages else 0)

/-- The listing traversal of `AljaridaScraper.scrape_day` (`scraper.py`
lines 159-177): page 1, then — when page 1 declared more than one page —
pages `2 .. max_pages` in order, concatenating whatever each page
returned. -/
def scrape_day_records (fp : Nat → Option (Nat × List ArchiveArticle)) : List ArchiveArticle :=
  let first := scrape_archive_page fp 1
  let rest :=
    if first.2 > 1 then
      ((List.range' 2 (first.2 - 1)).map (fun p => (scrape_archive_page fp p).1)).flatten
    else []
  first.1 ++ rest

/-- The rest of `scrape_day` (`scraper.py` lines 179-194): one
`scrape_article_content` fetch per listed article (the oracle `content`
returns `""` on a failed or unparseable article page), producing the
(category, title, body) rows handed to the sink. -/
def scrape_day (fp : Nat → Option (Nat × List ArchiveArticle)) (content : List Char → List Char) :
    List (List Char × List Char × List Char) :=
  (scrape_day_records fp).map (fun a => (a.category, a.title, content a.url))

/-- Concrete 3-page listing for the pagination claim: page 1 declares 3
pages and has one article, page 2 fails after retries, page 3 succeeds
with one article. -/
def c6FetchOracle : Nat → Option (Nat × List ArchiveArticle) := fun p =>
  if p = 1 then some (3, [⟨("c".toList), ("t1".toList), ("u1".toList)⟩])
  else if p = 3 then some (1, [⟨("c".toList), ("t3".toList), ("u3".toList)⟩])
  else none

/-- Mutable state of `AljaridaScraper.scrape_and_upload` (`scraper.py`
lines 242-291): the cursor date and the two run counters. -/
structure ArtRunState where
  current : Int
  totalArticles : Nat
  totalDays : Nat
  deriving DecidableEq

/-- One iteration of the article-crawl loop body (`scraper.py` lines
252-280): scrape the day (the per-date records given by the oracle
`dayRecs`); when the day has records, call `save_to_s3` (logged by date)
and on success add to both counters; in every case step the cursor one day
forward.  A day with no records makes no store call and touches no
counter. -/
def artStep (dayRecs : Int → List (List Char × List Char × List Char))
    (storeOk : Int → Bool) (s : ArtRunState) : ArtRunState × List Int :=
  let recs := dayRecs s.current
  if recs.isEmpty then ({ s with current := s.current + 1 }, [])
  else if storeOk s.current then
    ({ current := s.current + 1, totalArticles := s.totalArticles + recs.length,
       totalDays := s.totalDays + 1 }, [s.current])
  else ({ s with current := s.current + 1 }, [s.current])

/-- The `while current_date <= end_date` loop of the article crawl,
fuel-indexed like `pdfRunFuel`; returns the final state and the dates on
which `save_to_s3` was invoked. -/
def artRunFuel (dayRecs : Int → List (List Char × List Char × List Char))
    (storeOk : Int → Bool) (endDate : Int) : Nat → ArtRunState → ArtRunState × List Int
  | 0, s => (s, [])
  | fuel + 1, s =>
    if endDate < s.current then (s, [])
    else
      let one := artStep dayRecs storeOk s
      let r := artRunFuel dayRecs storeOk endDate fuel one.1
      (r.1, one.2 ++ r.2)

/-- `AljaridaScraper.scrape_and_upload`: run the loop with exactly enough
fuel for the date range. -/
def artRun (dayRecs : Int → List (List Char × List Char × List Char))
    (storeOk : Int → Bool) (endDate : Int) (s : ArtRunState) : ArtRunState × List Int :=
  artRunFuel dayRecs storeOk endDate (endDate - s.current + 1).toNat s

/-! ## Helper lemmas -/
/-! ## Helper lemmas -/

theorem digitChar_ne_qmark (n : Nat) : digitChar n ≠ '?' := by
  unfold digitChar
  split <;> decide

theorem natDigitsAux_qmark : ∀ fuel n : Nat, '?' ∉ natDigitsAux fuel n := by
  intro fuel
  induction fuel with
  | zero =>
    intro n h
    rw [natDigitsAux] at h
    exact absurd h (by simp)
  | succ f ih =>
    intro n h
    rw [natDigitsAux] at h
    by_cases h10 : n < 10
    · rw [if_pos h10] at h
      simp only [List.mem_singleton] at h
      exact digitChar_ne_qmark n h.symm
    · rw [if_neg h10] at h
      simp only [List.mem_append, List.mem_singleton] at h
      rcases h with h | h
      · exact ih _ h
      · exact digitChar_ne_qmark _ h.symm

theorem natDigits_qmark (n : Nat) : '?' ∉ natDigits n := natDigitsAux_qmark _ n

theorem pad2_qmark (n : Nat) : '?' ∉ pad2 n := by
  intro h
  unfold pad2 at h
  by_cases h10 : n < 10
  · rw [if_pos h10] at h
    rcases List.mem_cons.mp h with h | h
    · exact absurd h (by decide)
    · exact natDigits_qmark n h
  · rw [if_neg h10] at h
    exact natDigits_qmark n h

theorem pdfFallbackName_qmark (y m d : Nat) : '?' ∉ pdfFallbackName y m d := by
  intro h
  simp only [pdfFallbackName, List.mem_append] at h
  rcases h with (((h | h) | h) | h) | h
  · exact absurd h (by decide)
  · exact natDigits_qmark y h
  · exact pad2_qmark m h
  · exact pad2_qmark d h
  · exact absurd h (by decide)

theorem mem_takeUntilChar {c x : Char} {l : List Char} (h : x ∈ takeUntilChar c l) : x ≠ c := by
  have := List.mem_takeWhile_imp h
  simpa using this

theorem takeUntilChar_eq_self {c : Char} {l : List Char} (h : ∀ x ∈ l, x ≠ c) :
    takeUntilChar c l = l := by
  induction l with
  | nil => rfl
  | cons a l ih =>
    have ha : a ≠ c := h a (List.mem_cons_self a l)
    have hl : takeUntilChar c l = l := by
      apply ih
      intro x hx
      exact h x (List.mem_cons_of_mem a hx)
    simp only [takeUntilChar, List.takeWhile_cons] at hl ⊢
    rw [if_pos (decide_eq_true ha), hl]

theorem afterSchemeSplit_mem : ∀ (u r : List Char), afterSchemeSplit u = some r →
    ∀ x ∈ r, x ∈ u := by
  intro u
  induction u using afterSchemeSplit.induct with
  | case1 =>
    intro r h
    simp [afterSchemeSplit] at h
  | case2 rest =>
    intro r h x hx
    simp only [afterSchemeSplit, Option.some.injEq] at h
    subst h
    simp [hx]
  | case3 a rest hne ih =>
    intro r h x hx
    rw [afterSchemeSplit] at h
    · exact List.mem_cons_of_mem a (ih r h x hx)
    · exact hne

theorem mem_urlPathChars {x : Char} {u : List Char} (h : x ∈ urlPathChars u) :
    x ∈ takeUntilChar '?' (takeUntilChar '#' u) := by
  simp only [urlPathChars] at h
  split at h
  · exact h
  · next r heq => exact afterSchemeSplit_mem _ r heq x ((List.dropWhile_sublist _).subset h)

theorem urlPathChars_qmark {x : Char} {u : List Char} (h : x ∈ urlPathChars u) : x ≠ '?' :=
  mem_takeUntilChar (mem_urlPathChars h)

theorem mem_basenameChars {x : Char} {l : List Char} (h : x ∈ basenameChars l) : x ∈ l := by
  unfold basenameChars at h
  rw [List.mem_reverse] at h
  have := (List.takeWhile_sublist _).subset h
  rwa [List.mem_reverse] at this

/-! ## Claim theorems -/

/-- Claim C8: for every date (Y, M, D), the derived storage partition key
equals `{collection}/year={Y}/month={M:02}/day={D:02}/{artifact}` with
month and day zero-padded to two digits — collection `aljarida`, artifact
`data.xlsx` for the article sink and `magazinepdf/{filename}` for the PDF
sink; in particular for the date (2024,3,7) both derived keys begin with
exactly `aljarida/year=2024/month=03/day=07/`. -/
theorem c8_partition_key :
    (∀ y m d : Nat, articleKey y m d =
        specPartitionKey ("aljarida".toList) y m d ("data.xlsx".toList))
    ∧ (∀ (y m d : Nat) (f : List Char), pdfKey y m d f =
        specPartitionKey ("aljarida".toList) y m d (("magazinepdf/".toList) ++ f))
    ∧ (articleKey 2024 3 7).take 35 = ("aljarida/year=2024/month=03/day=07/".toList)
    ∧ (∀ f : List Char, (pdfKey 2024 3 7 f).take 35 =
        ("aljarida/year=2024/month=03/day=07/".toList)) := by
  refine ⟨?_, ?_, by decide, ?_⟩
  · intro y m d
    unfold articleKey specPartitionKey specZeroPad2 pad2
    simp only [List.append_assoc]
    rfl
  · intro y m d f
    unfold pdfKey specPartitionKey specZeroPad2 pad2
    simp only [List.append_assoc]
    rfl
  · intro f
    show (List.append _ _).take 35 = _
    rfl

/-- Claim C10: for every PDF locator URL, the artifact filename used in the
storage key is the basename of the URL's path with any query string
removed; when that basename is empty or does not end in `.pdf`, the
deterministic fallback `aljarida-{Y}{M:02}{D:02}-1.pdf` is used instead
(stated as equality of the code's filename selection with the spec-side
definition, so the storage key is a deterministic function of the date and
the locator). -/
theorem c10_filename : ∀ (u : List Char) (y m d : Nat),
    pdfUploadFilename u y m d = specArtifactFilename u y m d := by
  intro u y m d
  have hq : ∀ x ∈ basenameChars (urlPathChars u), x ≠ '?' := fun x hx =>
    urlPathChars_qmark (mem_basenameChars hx)
  have hb : takeUntilChar '?' (basenameChars (urlPathChars u)) = basenameChars (urlPathChars u) :=
    takeUntilChar_eq_self hq
  simp only [pdfUploadFilename, specArtifactFilename]
  rw [hb]
  by_cases hc : (basenameChars (urlPathChars u)).isEmpty
      || !hasSuffixChars (basenameChars (urlPathChars u)) (".pdf".toList)
  · rw [if_pos hc]
    refine takeUntilChar_eq_self fun x hx => ?_
    rintro rfl
    exact pdfFallbackName_qmark y m d hx
  · rw [if_neg hc]
    exact hb

/-- Claim C3: for every stored checkpoint C, starting a run with checkpoint
resumption enabled and no explicit start date begins processing at exactly
one step past C in the backward direction, i.e. at C minus one day;
additionally, without a checkpoint the default start stands, and an
explicit start date suppresses checkpoint resumption. -/
theorem c3_resumption :
    ∀ (c defaultStart : Int) (p : Option Int),
      resolveStartDate true false p (some c) defaultStart = c - 1
      ∧ resolveStartDate true false p none defaultStart = defaultStart
      ∧ (∀ a : Int, resolveStartDate true true (some a) (some c) defaultStart = a) := by
  intro c d p
  exact ⟨rfl, rfl, fun a => rfl⟩

/-- Claim C1 counterexample: with the article key for (2024,3,7) already
present in the store, `save_to_s3` still issues a `put_object` for that
key (the put log is nonempty) and the store ends with a duplicate write —
so the article-sink store operation does not perform an existence check
and does not return an already-exists success without re-uploading. -/
theorem c1_counterexample :
    articleKey 2024 3 7 ∈ [articleKey 2024 3 7]
    ∧ (save_to_s3 true [articleKey 2024 3 7] 2024 3 7).2.2 ≠ []
    ∧ (save_to_s3 true [articleKey 2024 3 7] 2024 3 7).2.2 = [articleKey 2024 3 7]
    ∧ (save_to_s3 true [articleKey 2024 3 7] 2024 3 7).2.1
        = [articleKey 2024 3 7, articleKey 2024 3 7] := by
  exact ⟨List.mem_singleton.mpr rfl, by simp [save_to_s3], rfl, rfl⟩

/-- Claim C1 (amended): the PDF (binary) document sink does check existence
first — when the derived key is present it returns success with no
download and no upload, which makes repeated PDF runs cheap; the article
sink, however, writes unconditionally: every configured call issues
exactly one put of the date's deterministic key, so a repeated run
re-uploads, but the final persisted key set is the same (the write is
idempotent at the key-set level). -/
theorem c1_amended :
    (∀ (dOk uOk : Bool) (store : List (List Char)) (u : List Char) (y m d : Nat),
        pdfKey y m d (pdfUploadFilename u y m d) ∈ store →
        upload_pdf_to_s3 dOk uOk store u y m d = ⟨true, store, false, []⟩)
    ∧ (∀ (store : List (List Char)) (y m d : Nat),
        (save_to_s3 true store y m d).1 = true
        ∧ (save_to_s3 true store y m d).2.2 = [articleKey y m d]
        ∧ ((save_to_s3 true store y m d).2.1).toFinset
            = insert (articleKey y m d) store.toFinset) := by
  constructor
  · intro dOk uOk store u y m d h
    simp only [upload_pdf_to_s3]
    rw [if_pos h]
  · intro store y m d
    refine ⟨rfl, rfl, ?_⟩
    show (store ++ [articleKey y m d]).toFinset = _
    ext x
    simp [or_comm]

/-- Witness for the amended claim C1 at concrete inputs. -/
theorem c1_witness :
    upload_pdf_to_s3 true true [pdfKey 2024 3 7 (pdfUploadFilename ([]) 2024 3 7)] ([]) 2024 3 7
      = ⟨true, [pdfKey 2024 3 7 (pdfUploadFilename ([]) 2024 3 7)], false, []⟩
    ∧ ((save_to_s3 true [] 2024 3 7).2.1).toFinset
        = insert (articleKey 2024 3 7) (([] : List (List Char)).toFinset) :=
  ⟨c1_amended.1 true true _ ([]) 2024 3 7 (List.mem_singleton.mpr rfl),
    (c1_amended.2 [] 2024 3 7).2.2⟩

/-- Claim C6 counterexample: on a 3-page listing whose page 2 fails after
retries while page 3 succeeds, `scrape_day` does not truncate at the last
successful page — the day's records are those of page 1 followed by those
of page 3, not the records of page 1 only. -/
theorem c6_counterexample :
    scrape_day_records c6FetchOracle
      = [⟨("c".toList), ("t1".toList), ("u1".toList)⟩,
         ⟨("c".toList), ("t3".toList), ("u3".toList)⟩]
    ∧ scrape_day_records c6FetchOracle ≠ [⟨("c".toList), ("t1".toList), ("u1".toList)⟩] := by
  exact ⟨by decide, by decide⟩

/-- Claim C6 (amended): on a 3-page listing whose page 2 fails after
retries, the failed page contributes zero records but the later page is
still fetched and contributes its records — the day's result is the
concatenation of page 1's and page 3's records (and the article crawl
records no failure for the date: `scrape_day` surfaces no failure signal
at all). -/
theorem c6_amended :
    ∀ (fp : Nat → Option (Nat × List ArchiveArticle)) (a1 a3 : List ArchiveArticle) (k : Nat),
      fp 1 = some (3, a1) → fp 2 = none → fp 3 = some (k, a3) →
      scrape_day_records fp = a1 ++ a3 := by
  intro fp a1 a3 k h1 h2 h3
  simp [scrape_day_records, scrape_archive_page, h1, h2, h3, List.range']

/-- Witness for the amended claim C6 at the concrete 3-page oracle. -/
theorem c6_witness :
    scrape_day_records c6FetchOracle
      = [⟨("c".toList), ("t1".toList), ("u1".toList)⟩]
        ++ [⟨("c".toList), ("t3".toList), ("u3".toList)⟩] :=
  c6_amended c6FetchOracle _ _ 1 rfl rfl rfl

/-- Claim C9: in the article crawl, a date whose extraction yields zero
articles makes no store call and leaves both run counters (`total_days`,
`total_articles`) unchanged — there is no skip counter to record it — yet
the cursor still advances past it; and every store call a run issues is on
a date whose extraction yielded at least one record. -/
theorem c9_empty_day_frame :
    ∀ (dayRecs : Int → List (List Char × List Char × List Char)) (storeOk : Int → Bool)
      (endDate : Int),
      (∀ s : ArtRunState, dayRecs s.current = [] →
        artStep dayRecs storeOk s = ({ s with current := s.current + 1 }, []))
      ∧ (∀ (fuel : Nat) (s : ArtRunState) (d : Int),
          d ∈ (artRunFuel dayRecs storeOk endDate fuel s).2 → dayRecs d ≠ []) := by
  intro dayRecs storeOk endDate
  constructor
  · intro s h
    simp [artStep, h]
  · intro fuel
    induction fuel with
    | zero =>
      intro s d h
      rw [artRunFuel] at h
      exact absurd h (by simp)
    | succ f ih =>
      intro s d h
      rw [artRunFuel] at h
      by_cases hcur : endDate < s.current
      · rw [if_pos hcur] at h
        exact absurd h (by simp)
      · rw [if_neg hcur] at h
        simp only [List.mem_append] at h
        rcases h with h | h
        · cases hrec : dayRecs s.current with
          | nil => simp [artStep, hrec] at h
          | cons r rs =>
            cases hso : storeOk s.current <;>
              simp [artStep, hrec, hso] at h <;>
              (rw [h, hrec]; simp)
        · exact ih _ _ h

/-- Witness for claim C9 at a concrete empty-day oracle. -/
theorem c9_witness :
    artStep (fun _ => []) (fun _ => true) ⟨0, 0, 0⟩ = (⟨1, 0, 0⟩, []) :=
  (c9_empty_day_frame (fun _ => []) (fun _ => true) 0).1 ⟨0, 0, 0⟩ rfl

/-- Full characterization of the retry loop, generalized over the starting
attempt index: at most `rem` attempts; every attempt before the last one
failed; either the last attempt made succeeded and its content is returned
immediately, or all `rem` attempts failed and `none` is returned; and the
sleeps are exactly `2 ^ j` for each failed non-final attempt `j`. -/
theorem getPageContentAux_spec (orc : Nat → Option α) :
    ∀ (rem i : Nat),
      (getPageContentAux orc i rem).attempts ≤ rem
      ∧ (∀ j, j + 1 < (getPageContentAux orc i rem).attempts → orc (i + j) = none)
      ∧ ((∃ c, (getPageContentAux orc i rem).result = some c
            ∧ 0 < (getPageContentAux orc i rem).attempts
            ∧ orc (i + ((getPageContentAux orc i rem).attempts - 1)) = some c)
          ∨ ((getPageContentAux orc i rem).result = none
            ∧ (getPageContentAux orc i rem).attempts = rem
            ∧ ∀ j < rem, orc (i + j) = none))
      ∧ (getPageContentAux orc i rem).sleeps
          = (List.range' i ((getPageContentAux orc i rem).attempts - 1)).map (fun j => 2 ^ j) := by
  intro rem
  induction rem with
  | zero =>
    intro i
    dsimp only [getPageContentAux]
    refine ⟨Nat.le_refl _, ?_, Or.inr ⟨rfl, rfl, ?_⟩, rfl⟩
    · intro j hj
      exact absurd hj (by omega)
    · intro j hj
      exact absurd hj (by omega)
  | succ r ih =>
    intro i
    cases horc : orc i with
    | some c =>
      have hred : getPageContentAux orc i (r + 1) = ⟨some c, 1, []⟩ := by
        simp [getPageContentAux, horc]
      rw [hred]
      dsimp only
      refine ⟨by omega, ?_, Or.inl ⟨c, rfl, by omega, by simpa using horc⟩, rfl⟩
      intro j hj
      exact absurd hj (by omega)
    | none =>
      cases r with
      | zero =>
        have hred : getPageContentAux orc i 1 = ⟨none, 1, []⟩ := by
          simp [getPageContentAux, horc]
        rw [hred]
        dsimp only
        refine ⟨Nat.le_refl _, ?_, Or.inr ⟨rfl, rfl, ?_⟩, rfl⟩
        · intro j hj
          exact absurd hj (by omega)
        · intro j hj
          have hj0 : j = 0 := by omega
          subst hj0
          simpa using horc
      | succ rp =>
        have hred : getPageContentAux orc i (rp + 1 + 1)
            = ⟨(getPageContentAux orc (i + 1) (rp + 1)).result,
               (getPageContentAux orc (i + 1) (rp + 1)).attempts + 1,
               2 ^ i :: (getPageContentAux orc (i + 1) (rp + 1)).sleeps⟩ := by
          simp [getPageContentAux, horc]
        obtain ⟨iha, ihj, ihres, ihs⟩ := ih (i + 1)
        rw [hred]
        dsimp only
        set R := getPageContentAux orc (i + 1) (rp + 1) with hR
        have hApos : 0 < R.attempts := by
          rcases ihres with ⟨c, _, hpos, _⟩ | ⟨_, hatt, _⟩
          · exact hpos
          · omega
        refine ⟨by omega, ?_, ?_, ?_⟩
        · intro j hj
          cases j with
          | zero => simpa using horc
          | succ k =>
            have hk := ihj k (by omega)
            rwa [show i + (k + 1) = i + 1 + k by omega]
        · rcases ihres with ⟨c, hres, hpos, hidx⟩ | ⟨hres, hatt, hall⟩
          · refine Or.inl ⟨c, hres, by omega, ?_⟩
            rw [show i + (R.attempts + 1 - 1) = i + 1 + (R.attempts - 1) by omega]
            exact hidx
          · refine Or.inr ⟨hres, by omega, ?_⟩
            intro j hj
            cases j with
            | zero => simpa using horc
            | succ k =>
              have hk := hall k (by omega)
              rwa [show i + (k + 1) = i + 1 + k by omega]
        · rw [ihs, show R.attempts + 1 - 1 = (R.attempts - 1) + 1 by omega, List.range'_succ]
          rfl

/-- Claim C7: for every transport oracle and attempt ceiling N (the Python
default being `max_retries=3`), `get_page_content` makes at most N
attempts; every attempt before its last failed; it returns the content of
the first successful attempt immediately, or the failure value `none`
after all N attempts failed (never an exception — the embedding is a total
function); and it sleeps `base * 2^attemptIndex` (base 1 second, index
from 0) between failed attempts. -/
theorem c7_retry_fetcher : ∀ (α : Type) (orc : Nat → Option α) (N : Nat),
    (get_page_content orc N).attempts ≤ N
    ∧ (∀ j, j + 1 < (get_page_content orc N).attempts → orc j = none)
    ∧ ((∃ c, (get_page_content orc N).result = some c
          ∧ 0 < (get_page_content orc N).attempts
          ∧ orc ((get_page_content orc N).attempts - 1) = some c)
        ∨ ((get_page_content orc N).result = none
          ∧ (get_page_content orc N).attempts = N
          ∧ ∀ j < N, orc j = none))
    ∧ (get_page_content orc N).sleeps
        = (List.range ((get_page_content orc N).attempts - 1)).map (fun j => 2 ^ j) := by
  intro α orc N
  obtain ⟨h1, h2, h3, h4⟩ := getPageContentAux_spec orc N 0
  simp only [Nat.zero_add] at h2 h3
  exact ⟨h1, h2, h3, by rw [List.range_eq_range']; exact h4⟩

/-- Witness for claim C7 at a concrete oracle succeeding on attempt 1. -/
theorem c7_witness :
    (get_page_content (fun i => if i = 1 then some 42 else none) 3).attempts ≤ 3 :=
  (c7_retry_fetcher Nat (fun i => if i = 1 then some 42 else none) 3).1

theorem lookupKey_eq_none_iff : ∀ (k : List Char) (c : MonthCache),
    lookupKey k c = none ↔ k ∉ c.map Prod.fst := by
  intro k c
  induction c with
  | nil => simp [lookupKey]
  | cons p rest ih =>
    obtain ⟨k', v⟩ := p
    by_cases hk : k' = k
    · subst hk
      simp [lookupKey]
    · simp only [lookupKey, if_neg hk, List.map_cons, List.mem_cons]
      rw [ih]
      constructor
      · rintro h (h1 | h2)
        · exact hk h1.symm
        · exact h h2
      · intro h h2
        exact h (Or.inr h2)

theorem card_insert_sdiff {α : Type} [DecidableEq α] (k : α) (S C : Finset α) (hk : k ∉ C) :
    (insert k S \ C).card = (S \ insert k C).card + 1 := by
  have h1 : insert k S \ C = insert k (S \ C) := by
    ext x
    simp only [Finset.mem_sdiff, Finset.mem_insert]
    constructor
    · rintro ⟨h | h, hc⟩
      · exact Or.inl h
      · exact Or.inr ⟨h, hc⟩
    · rintro (rfl | ⟨hs, hc⟩)
      · exact ⟨Or.inl rfl, hk⟩
      · exact ⟨Or.inr hs, hc⟩
  have h2 : S \ insert k C = (S \ C).erase k := by
    ext x
    simp only [Finset.mem_sdiff, Finset.mem_insert, Finset.mem_erase]
    constructor
    · rintro ⟨hs, hnot⟩
      exact ⟨fun he => hnot (Or.inl he), hs, fun hc => hnot (Or.inr hc)⟩
    · rintro ⟨hne, hs, hc⟩
      refine ⟨hs, ?_⟩
      rintro (h | h)
      · exact hne h
      · exact hc h
  rw [h1, h2]
  by_cases hkT : k ∈ S \ C
  · rw [Finset.insert_eq_self.mpr hkT]
    exact (Finset.card_erase_add_one hkT).symm
  · rw [Finset.card_insert_of_not_mem hkT, Finset.erase_eq_of_not_mem hkT]

/-- Fetch-count invariant of a resolution sequence: the number of listing
fetches equals the number of distinct cache keys requested that are not
already cached. -/
theorem resolveMonths_count (fp : Nat → Nat → MonthFetchOutcome) :
    ∀ (ks : List (Nat × Nat)) (c : MonthCache),
      (resolveMonths fp ks c).2
        = ((ks.map fun p => monthCacheKey p.1 p.2).toFinset \ (c.map Prod.fst).toFinset).card := by
  intro ks
  induction ks with
  | nil =>
    intro c
    simp [resolveMonths]
  | cons p rest ih =>
    intro c
    obtain ⟨y, m⟩ := p
    rw [resolveMonths]
    dsimp only
    cases hl : lookupKey (monthCacheKey y m) c with
    | some v =>
      have hred : scrape_pdf_month_index fp y m c = (v, c, 0) := by
        simp [scrape_pdf_month_index, hl]
      rw [hred]
      dsimp only
      rw [ih c]
      have hmem : monthCacheKey y m ∈ (c.map Prod.fst).toFinset := by
        rw [List.mem_toFinset]
        by_contra hnot
        rw [← lookupKey_eq_none_iff] at hnot
        rw [hl] at hnot
        exact absurd hnot (by simp)
      simp only [List.map_cons, List.toFinset_cons]
      rw [Finset.insert_sdiff_of_mem _ hmem, Nat.zero_add]
    | none =>
      obtain ⟨idx', hred⟩ : ∃ idx', scrape_pdf_month_index fp y m c
          = (idx', (monthCacheKey y m, idx') :: c, 1) := by
        cases hfp : fp y m with
        | fetchFailed => exact ⟨[], by simp [scrape_pdf_month_index, hl, hfp]⟩
        | noWidget => exact ⟨[], by simp [scrape_pdf_month_index, hl, hfp]⟩
        | parsed idx => exact ⟨idx, by simp [scrape_pdf_month_index, hl, hfp]⟩
      rw [hred]
      dsimp only
      rw [ih ((monthCacheKey y m, idx') :: c)]
      have hkF : monthCacheKey y m ∉ (c.map Prod.fst).toFinset := by
        rw [List.mem_toFinset]
        exact (lookupKey_eq_none_iff _ c).mp hl
      simp only [List.map_cons, List.toFinset_cons]
      rw [card_insert_sdiff _ _ _ hkF]
      omega

/-- Claim C4: per run and distinct period key, the period index cache
issues at most one listing fetch — from a fresh cache, a list of month
resolutions issues exactly one fetch per distinct cache key; a resolve
that hits the cache returns the memoized mapping with no fetch and leaves
the cache unchanged; and a miss fetches once and caches the result, which
is the empty mapping whenever the fetch failed or the page had no index
widget, so that even empty results are never refetched within the run. -/
theorem c4_period_cache (fp : Nat → Nat → MonthFetchOutcome) :
    (∀ ks : List (Nat × Nat),
        (resolveMonths fp ks []).2 = ((ks.map fun p => monthCacheKey p.1 p.2).toFinset).card)
    ∧ (∀ (y m : Nat) (c : MonthCache) (v : MonthIndex),
        lookupKey (monthCacheKey y m) c = some v →
        scrape_pdf_month_index fp y m c = (v, c, 0))
    ∧ (∀ (y m : Nat) (c : MonthCache),
        lookupKey (monthCacheKey y m) c = none →
        (scrape_pdf_month_index fp y m c).2.2 = 1
        ∧ lookupKey (monthCacheKey y m) (scrape_pdf_month_index fp y m c).2.1
            = some (scrape_pdf_month_index fp y m c).1
        ∧ ((fp y m = MonthFetchOutcome.fetchFailed ∨ fp y m = MonthFetchOutcome.noWidget) →
            (scrape_pdf_month_index fp y m c).1 = [])) := by
  refine ⟨?_, ?_, ?_⟩
  · intro ks
    rw [resolveMonths_count fp ks []]
    simp
  · intro y m c v hl
    simp [scrape_pdf_month_index, hl]
  · intro y m c hl
    cases hfp : fp y m <;> simp [scrape_pdf_month_index, hl, hfp, lookupKey]

/-- Witness for claim C4 at a concrete failing fetch oracle: three
resolutions over two distinct months issue two fetches; a cache hit does
no fetch; a miss does one. -/
theorem c4_witness :
    (resolveMonths (fun _ _ => MonthFetchOutcome.fetchFailed) [(2024, 3), (2024, 3), (2024, 4)] []).2
      = 2
    ∧ scrape_pdf_month_index (fun _ _ => MonthFetchOutcome.fetchFailed) 2024 3
        [(monthCacheKey 2024 3, [])] = ([], [(monthCacheKey 2024 3, [])], 0)
    ∧ (scrape_pdf_month_index (fun _ _ => MonthFetchOutcome.fetchFailed) 2024 3 []).2.2 = 1 := by
  have h := c4_period_cache (fun _ _ => MonthFetchOutcome.fetchFailed)
  refine ⟨?_, ?_, ?_⟩
  · rw [h.1 [(2024, 3), (2024, 3), (2024, 4)]]
    decide
  · exact h.2.1 2024 3 [(monthCacheKey 2024 3, [])] [] (by simp [lookupKey])
  · exact (h.2.2 2024 3 [] rfl).1

theorem pdfStep_current (o : Int → DayOutcome) (s : PdfRunState) :
    (pdfStep o s).current = s.current - 1 := rfl

theorem pdfStep_settled (o : Int → DayOutcome) (s : PdfRunState) :
    settledDays (pdfStep o s) = settledDays s + 1 := by
  cases h : o s.current <;> simp [pdfStep, settledDays, h] <;> omega

theorem pdfStep_checkpoint_writes (o : Int → DayOutcome) (s : PdfRunState) :
    (pdfStep o s).checkpoint = (pdfStepWrites o s).foldl (fun _ d => some d) s.checkpoint := by
  cases h : o s.current <;> simp [pdfStep, pdfStepWrites, h]

theorem pdfRunFuel_halt (o : Int → DayOutcome) (e : Int) (M T : Nat) (el : Nat → Nat)
    (f : Nat) (s : PdfRunState)
    (h : s.current < e ∨ M ≤ settledDays s ∨ T ≤ el (settledDays s)) :
    pdfRunFuel o e M T el (f + 1) s = (s, []) := by
  rw [pdfRunFuel]
  rcases h with h | h | h
  · rw [if_pos h]
  · by_cases h1 : s.current < e
    · rw [if_pos h1]
    · rw [if_neg h1, if_pos h]
  · by_cases h1 : s.current < e
    · rw [if_pos h1]
    · rw [if_neg h1]
      by_cases h2 : M ≤ settledDays s
      · rw [if_pos h2]
      · rw [if_neg h2, if_pos h]

theorem pdfRunFuel_go (o : Int → DayOutcome) (e : Int) (M T : Nat) (el : Nat → Nat)
    (f : Nat) (s : PdfRunState) (h1 : ¬ s.current < e) (h2 : ¬ M ≤ settledDays s)
    (h3 : ¬ T ≤ el (settledDays s)) :
    pdfRunFuel o e M T el (f + 1) s
      = ((pdfRunFuel o e M T el f (pdfStep o s)).1,
         pdfStepWrites o s ++ (pdfRunFuel o e M T el f (pdfStep o s)).2) := by
  rw [pdfRunFuel, if_neg h1, if_neg h2, if_neg h3]

theorem pdfRunFuel_current_le (o : Int → DayOutcome) (e : Int) (M T : Nat) (el : Nat → Nat) :
    ∀ (fuel : Nat) (s : PdfRunState), (pdfRunFuel o e M T el fuel s).1.current ≤ s.current := by
  intro fuel
  induction fuel with
  | zero =>
    intro s
    exact le_refl _
  | succ f ih =>
    intro s
    by_cases hh : s.current < e ∨ M ≤ settledDays s ∨ T ≤ el (settledDays s)
    · rw [pdfRunFuel_halt o e M T el f s hh]
    · have h1 : ¬ s.current < e := fun h => hh (Or.inl h)
      have h2 : ¬ M ≤ settledDays s := fun h => hh (Or.inr (Or.inl h))
      have h3 : ¬ T ≤ el (settledDays s) := fun h => hh (Or.inr (Or.inr h))
      rw [pdfRunFuel_go o e M T el f s h1 h2 h3]
      dsimp only
      have hs := ih (pdfStep o s)
      rw [pdfStep_current] at hs
      omega

theorem pdfRunFuel_mem (o : Int → DayOutcome) (e : Int) (M T : Nat) (el : Nat → Nat) :
    ∀ (fuel : Nat) (s : PdfRunState) (d : Int),
      d ∈ (pdfRunFuel o e M T el fuel s).2
        ↔ ((pdfRunFuel o e M T el fuel s).1.current < d ∧ d ≤ s.current
            ∧ o d = DayOutcome.success) := by
  intro fuel
  induction fuel with
  | zero =>
    intro s d
    rw [pdfRunFuel]
    dsimp only
    constructor
    · intro h
      exact absurd h (List.not_mem_nil d)
    · rintro ⟨ha, hb, _⟩
      omega
  | succ f ih =>
    intro s d
    by_cases hh : s.current < e ∨ M ≤ settledDays s ∨ T ≤ el (settledDays s)
    · rw [pdfRunFuel_halt o e M T el f s hh]
      dsimp only
      constructor
      · intro h
        exact absurd h (List.not_mem_nil d)
      · rintro ⟨ha, hb, _⟩
        omega
    · have h1 : ¬ s.current < e := fun h => hh (Or.inl h)
      have h2 : ¬ M ≤ settledDays s := fun h => hh (Or.inr (Or.inl h))
      have h3 : ¬ T ≤ el (settledDays s) := fun h => hh (Or.inr (Or.inr h))
      rw [pdfRunFuel_go o e M T el f s h1 h2 h3]
      dsimp only
      have hcur := pdfRunFuel_current_le o e M T el f (pdfStep o s)
      rw [pdfStep_current] at hcur
      rw [List.mem_append, ih (pdfStep o s) d, pdfStep_current]
      unfold pdfStepWrites
      by_cases hs : o s.current = DayOutcome.success
      · rw [if_pos hs]
        simp only [List.mem_singleton]
        constructor
        · rintro (rfl | ⟨ha, hb, hc⟩)
          · exact ⟨by omega, le_refl _, hs⟩
          · exact ⟨ha, by omega, hc⟩
        · rintro ⟨ha, hb, hc⟩
          by_cases hd : d = s.current
          · exact Or.inl hd
          · exact Or.inr ⟨ha, by omega, hc⟩
      · rw [if_neg hs]
        simp only [List.not_mem_nil, false_or]
        constructor
        · rintro ⟨ha, hb, hc⟩
          exact ⟨ha, by omega, hc⟩
        · rintro ⟨ha, hb, hc⟩
          have hd : d ≠ s.current := fun hde => hs (hde ▸ hc)
          exact ⟨ha, by omega, hc⟩

theorem pdfRunFuel_sorted (o : Int → DayOutcome) (e : Int) (M T : Nat) (el : Nat → Nat) :
    ∀ (fuel : Nat) (s : PdfRunState),
      (pdfRunFuel o e M T el fuel s).2.Pairwise (· > ·) := by
  intro fuel
  induction fuel with
  | zero =>
    intro s
    rw [pdfRunFuel]
    exact List.Pairwise.nil
  | succ f ih =>
    intro s
    by_cases hh : s.current < e ∨ M ≤ settledDays s ∨ T ≤ el (settledDays s)
    · rw [pdfRunFuel_halt o e M T el f s hh]
      exact List.Pairwise.nil
    · have h1 : ¬ s.current < e := fun h => hh (Or.inl h)
      have h2 : ¬ M ≤ settledDays s := fun h => hh (Or.inr (Or.inl h))
      have h3 : ¬ T ≤ el (settledDays s) := fun h => hh (Or.inr (Or.inr h))
      rw [pdfRunFuel_go o e M T el f s h1 h2 h3]
      dsimp only
      rw [List.pairwise_append]
      refine ⟨?_, ih (pdfStep o s), ?_⟩
      · unfold pdfStepWrites
        split <;> simp
      · intro a ha b hb
        unfold pdfStepWrites at ha
        by_cases hs : o s.current = DayOutcome.success
        · rw [if_pos hs] at ha
          simp only [List.mem_singleton] at ha
          subst ha
          have hb' := (pdfRunFuel_mem o e M T el f (pdfStep o s) b).mp hb
          rw [pdfStep_current] at hb'
          obtain ⟨_, hble, _⟩ := hb'
          omega
        · rw [if_neg hs] at ha
          exact absurd ha (List.not_mem_nil a)

theorem pdfRunFuel_checkpoint (o : Int → DayOutcome) (e : Int) (M T : Nat) (el : Nat → Nat) :
    ∀ (fuel : Nat) (s : PdfRunState),
      (pdfRunFuel o e M T el fuel s).1.checkpoint
        = (pdfRunFuel o e M T el fuel s).2.foldl (fun _ d => some d) s.checkpoint := by
  intro fuel
  induction fuel with
  | zero =>
    intro s
    rw [pdfRunFuel]
    rfl
  | succ f ih =>
    intro s
    by_cases hh : s.current < e ∨ M ≤ settledDays s ∨ T ≤ el (settledDays s)
    · rw [pdfRunFuel_halt o e M T el f s hh]
      rfl
    · have h1 : ¬ s.current < e := fun h => hh (Or.inl h)
      have h2 : ¬ M ≤ settledDays s := fun h => hh (Or.inr (Or.inl h))
      have h3 : ¬ T ≤ el (settledDays s) := fun h => hh (Or.inr (Or.inr h))
      rw [pdfRunFuel_go o e M T el f s h1 h2 h3]
      dsimp only
      rw [List.foldl_append, ih (pdfStep o s), pdfStep_checkpoint_writes o s]

theorem pdfRunFuel_budget (o : Int → DayOutcome) (e : Int) (M T : Nat) (el : Nat → Nat) :
    ∀ (fuel : Nat) (s : PdfRunState), settledDays s ≤ M →
      settledDays (pdfRunFuel o e M T el fuel s).1 ≤ M := by
  intro fuel
  induction fuel with
  | zero =>
    intro s h
    exact h
  | succ f ih =>
    intro s h
    by_cases hh : s.current < e ∨ M ≤ settledDays s ∨ T ≤ el (settledDays s)
    · rw [pdfRunFuel_halt o e M T el f s hh]
      exact h
    · have h1 : ¬ s.current < e := fun hx => hh (Or.inl hx)
      have h2 : ¬ M ≤ settledDays s := fun hx => hh (Or.inr (Or.inl hx))
      have h3 : ¬ T ≤ el (settledDays s) := fun hx => hh (Or.inr (Or.inr hx))
      rw [pdfRunFuel_go o e M T el f s h1 h2 h3]
      dsimp only
      apply ih (pdfStep o s)
      rw [pdfStep_settled]
      omega

theorem pdfRunFuel_halt_reason (o : Int → DayOutcome) (e : Int) (M T : Nat) (el : Nat → Nat) :
    ∀ (fuel : Nat) (s : PdfRunState), (s.current - e + 1).toNat ≤ fuel →
      ((pdfRunFuel o e M T el fuel s).1.current < e
        ∨ M ≤ settledDays (pdfRunFuel o e M T el fuel s).1
        ∨ T ≤ el (settledDays (pdfRunFuel o e M T el fuel s).1)) := by
  intro fuel
  induction fuel with
  | zero =>
    intro s h
    rw [pdfRunFuel]
    dsimp only
    left
    omega
  | succ f ih =>
    intro s h
    by_cases hh : s.current < e ∨ M ≤ settledDays s ∨ T ≤ el (settledDays s)
    · rw [pdfRunFuel_halt o e M T el f s hh]
      exact hh
    · have h1 : ¬ s.current < e := fun hx => hh (Or.inl hx)
      have h2 : ¬ M ≤ settledDays s := fun hx => hh (Or.inr (Or.inl hx))
      have h3 : ¬ T ≤ el (settledDays s) := fun hx => hh (Or.inr (Or.inr hx))
      rw [pdfRunFuel_go o e M T el f s h1 h2 h3]
      dsimp only
      apply ih (pdfStep o s)
      rw [pdfStep_current]
      omega

/-- Claim C2: in a PDF-crawl run, a checkpoint write of date `d` is issued
exactly when `d` was processed in the run (it lies strictly between the
final cursor and the starting cursor, inclusive of the start) and `d`'s
document was successfully persisted (stored anew or already present); a
skipped or failed date issues no write; the sequence of written dates is
strictly decreasing, i.e. moves only in the backward iteration direction;
and the final stored checkpoint is the last written date (or the initial
one when nothing was written). -/
theorem c2_checkpoint (o : Int → DayOutcome) (e : Int) (M T : Nat) (el : Nat → Nat)
    (s : PdfRunState) :
    (∀ d : Int, d ∈ (pdfRun o e M T el s).2
        ↔ ((pdfRun o e M T el s).1.current < d ∧ d ≤ s.current ∧ o d = DayOutcome.success))
    ∧ (pdfRun o e M T el s).2.Pairwise (· > ·)
    ∧ (pdfRun o e M T el s).1.checkpoint
        = (pdfRun o e M T el s).2.foldl (fun _ d => some d) s.checkpoint :=
  ⟨fun d => pdfRunFuel_mem o e M T el _ s d, pdfRunFuel_sorted o e M T el _ s,
    pdfRunFuel_checkpoint o e M T el _ s⟩

/-- Witness for claim C2: a successfully persisted date appears in the
checkpoint-write log of a concrete run. -/
theorem c2_witness :
    (5 : Int) ∈ (pdfRun (fun d => if d = 5 then DayOutcome.success else DayOutcome.noDoc)
      0 100 100 (fun _ => 0) (pdfInitState 5 none)).2 := by
  have h := (c2_checkpoint (fun d => if d = 5 then DayOutcome.success else DayOutcome.noDoc)
      0 100 100 (fun _ => 0) (pdfInitState 5 none)).1 5
  exact h.mpr (by decide)

/-- Claim C5: with `max_days_per_run = M`, a PDF-crawl run settles at most
M dates — the final counters satisfy uploaded + skipped + failed ≤ M — and
the run only ever exits for one of the checked reasons: the cursor passed
the end date, the settled-days budget was reached, or the wall-clock
budget was reached (a graceful halt, not a failure: the run function is
total and returns its tallies). -/
theorem c5_budget (o : Int → DayOutcome) (e : Int) (M T : Nat) (el : Nat → Nat)
    (start : Int) (chk : Option Int) :
    settledDays (pdfRun o e M T el (pdfInitState start chk)).1 ≤ M
    ∧ ((pdfRun o e M T el (pdfInitState start chk)).1.current < e
        ∨ M ≤ settledDays (pdfRun o e M T el (pdfInitState start chk)).1
        ∨ T ≤ el (settledDays (pdfRun o e M T el (pdfInitState start chk)).1)) :=
  ⟨pdfRunFuel_budget o e M T el _ _ (by simp [settledDays, pdfInitState]),
    pdfRunFuel_halt_reason o e M T el _ _ (le_refl _)⟩

/-- Witness for claim C5 at a concrete run over 11 dates with budget 2. -/
theorem c5_witness :
    settledDays (pdfRun (fun _ => DayOutcome.noDoc) 0 2 1000 (fun _ => 0)
      (pdfInitState 10 none)).1 ≤ 2 :=
  (c5_budget (fun _ => DayOutcome.noDoc) 0 2 1000 (fun _ => 0) 10 none).1
